import Mathlib

set_option maxRecDepth 8192

namespace ThreadlineCLI

/-- Characters treated as whitespace (models JavaScript `String.prototype.trim`
for the whitespace that actually occurs in git/diff output). -/
def wsChar (c : Char) : Bool :=
  c = ' ' || c = '\t' || c = '\n' || c = '\r'

/-- Prefix test on character lists. -/
def charsStartWith : List Char → List Char → Bool
  | [], _ => true
  | _ :: _, [] => false
  | p :: ps, c :: cs => p = c && charsStartWith ps cs

/-- `s.startsWith(p)` of JavaScript, modelled on the character lists. -/
def strStartsWith (s p : String) : Bool :=
  charsStartWith p.data s.data

/-- `s.trim()` of JavaScript. -/
def strTrim (s : String) : String :=
  ⟨((s.data.dropWhile wsChar).reverse.dropWhile wsChar).reverse⟩

/-- Split a character list at every occurrence of `sep`
(models JavaScript `String.prototype.split` with a one-character separator). -/
def splitChars (sep : Char) : List Char → List (List Char)
  | [] => [[]]
  | c :: cs =>
    let rest := splitChars sep cs
    if c = sep then
      [] :: rest
    else
      match rest with
      | [] => [[c]]
      | r :: rs => (c :: r) :: rs

/-- `s.split(sep)` of JavaScript for a one-character separator. -/
def strSplit (s : String) (sep : Char) : List String :=
  (splitChars sep s.data).map (fun cs => ⟨cs⟩)

/-! ## Diff Slimmer (src/utils/slim-diff.ts, `createSlimDiff`)

A diff text is modelled by its list of lines: the TypeScript function starts
with `fullDiff.split('\n')` and ends with `result.join('\n')`, so the whole
computation lives on lines.  The number of lines of the output text is the
length of the output list. -/

/-- Value of a maximal digit run, as `parseInt(_, 10)` computes it. -/
def digitsToNat (ds : List Char) : Nat :=
  ds.foldl (fun a c => a * 10 + (c.toNat - 48)) 0

/-- `(?:,\d+)?` of the hunk-header regex: greedily consume `,` followed by
digits, falling back to consuming nothing if the continuation `k` fails. -/
def optCommaDigits (r : List Char) (k : List Char → Option (Nat × Nat × String)) :
    Option (Nat × Nat × String) :=
  match r with
  | ',' :: rest =>
    if (rest.takeWhile Char.isDigit).isEmpty then k r
    else
      match k (rest.dropWhile Char.isDigit) with
      | some v => some v
      | none => k r
  | _ => k r

/-- Match `/@@ -(\d+)(?:,\d+)? \+(\d+)(?:,\d+)? @@(.*)?/` anchored at the
head of `r`; on success return `(oldStart, newStart, title)` where `title`
is what `(.*)?` captures (the rest of the line). -/
def matchHunkHeaderAt (r : List Char) : Option (Nat × Nat × String) :=
  if charsStartWith "@@ -".data r then
    let r1 := r.drop 4
    let d1 := r1.takeWhile Char.isDigit
    if d1.isEmpty then none
    else
      optCommaDigits (r1.dropWhile Char.isDigit) (fun r2 =>
        if charsStartWith " +".data r2 then
          let r3 := r2.drop 2
          let d2 := r3.takeWhile Char.isDigit
          if d2.isEmpty then none
          else
            optCommaDigits (r3.dropWhile Char.isDigit) (fun r4 =>
              if charsStartWith " @@".data r4 then
                some (digitsToNat d1, digitsToNat d2, ⟨r4.drop 3⟩)
              else none)
        else none)
  else none

/-- Leftmost match of the unanchored hunk-header regex (JavaScript
`line.match(...)` semantics). -/
def hunkHeaderSearch : List Char → Option (Nat × Nat × String)
  | [] => none
  | c :: cs =>
    match matchHunkHeaderAt (c :: cs) with
    | some v => some v
    | none => hunkHeaderSearch cs

/-- Parse a hunk header line with the regex of `createSlimDiff`. -/
def parseHunkHeader (line : String) : Option (Nat × Nat × String) :=
  hunkHeaderSearch line.data

/-- A hunk line is a change when it starts with `+` or `-`. -/
def isChangeLine (l : String) : Bool :=
  strStartsWith l "+" || strStartsWith l "-"

/-- `changeIndices` of `createSlimDiff`: indices of the `+`/`-` lines. -/
def changeIndices (hl : List String) : List Nat :=
  (List.range hl.length).filter (fun j => isChangeLine (hl.getD j ""))

/-- Membership in `keepLines` of `createSlimDiff`: an index is kept when it
is at distance at most `c` from some change index.  The TypeScript loop
inserts, for each change index `ci`, the indices `ci - k ≥ 0` and
`ci + k < hl.length` for `1 ≤ k ≤ c` plus `ci` itself, which is exactly
this condition on the indices below `hl.length`. -/
def keepCond (hl : List String) (c : Nat) (j : Nat) : Bool :=
  (changeIndices hl).any (fun ci => ci - c ≤ j && j ≤ ci + c)

/-- `sortedKeepIndices` of `createSlimDiff`: the kept indices in ascending
order.  All kept indices lie below `hl.length`, so sorting the kept set
ascending is filtering the ascending list `0, …, hl.length - 1`. -/
def sortedKeepIndices (hl : List String) (c : Nat) : List Nat :=
  (List.range hl.length).filter (keepCond hl c)

/-- `slimHunkLines` of `createSlimDiff`. -/
def slimHunkLines (hl : List String) (c : Nat) : List String :=
  (sortedKeepIndices hl c).map (fun j => hl.getD j "")

/-- Old-side line count of the counting loops in `createSlimDiff`:
a `-` line or a context line counts, a `+` line does not. -/
def oldLineCount (ls : List String) : Nat :=
  ls.countP (fun l => !(strStartsWith l "+"))

/-- New-side line count: a `+` line or a context line counts. -/
def newLineCount (ls : List String) : Nat :=
  ls.countP (fun l => !(strStartsWith l "-"))

/-- The hunk-header line `result.push(...)`-ed by `createSlimDiff`. -/
def mkHunkHeader (os oc ns nc : Nat) (title : String) : String :=
  "@@ -" ++ toString os ++ "," ++ toString oc ++ " +" ++ toString ns ++ ","
    ++ toString nc ++ " @@" ++ title

/-- The hunk branch of `createSlimDiff`: lines contributed to `result` for
one hunk with header line `header` and body `hl`.  A hunk without change
lines, or whose header the regex does not match, contributes nothing. -/
def processHunk (header : String) (hl : List String) (c : Nat) : List String :=
  if changeIndices hl = [] then []
  else
    match parseHunkHeader header with
    | none => []
    | some (oldStart, newStart, title) =>
      let slim := slimHunkLines hl c
      let skipped := hl.take ((sortedKeepIndices hl c).headD 0)
      mkHunkHeader (oldStart + oldLineCount skipped) (oldLineCount slim)
        (newStart + newLineCount skipped) (newLineCount slim) title :: slim

/-- Negation of the condition stopping the metadata-copying loop. -/
def notHunkStart (s : String) : Bool :=
  !(strStartsWith s "@@")

/-- Negation of the condition stopping the hunk-collecting loop. -/
def notHunkOrFileStart (s : String) : Bool :=
  !(strStartsWith s "@@") && !(strStartsWith s "diff --git ")

/-- The `while (i < lines.length)` loop of `createSlimDiff`, with explicit
fuel for structural recursion.  A file-header line is copied together with
the following metadata lines (up to the next `@@` line); an `@@` line is
processed as a hunk together with the lines up to the next
`@@`/`diff --git ` line; any other line is skipped.  Every iteration of the
TypeScript loop advances `i` by at least one, so `lines.length` fuel always
suffices and the `0` case is never reached from `slimLoop`. -/
def slimLoopGo (fuel : Nat) (lines : List String) (c : Nat) : List String :=
  match fuel, lines with
  | _, [] => []
  | 0, _ :: _ => []
  | fuel + 1, l :: rest =>
    if strStartsWith l "diff --git " then
      l :: (rest.takeWhile notHunkStart ++ slimLoopGo fuel (rest.dropWhile notHunkStart) c)
    else if strStartsWith l "@@" then
      processHunk l (rest.takeWhile notHunkOrFileStart) c
        ++ slimLoopGo fuel (rest.dropWhile notHunkOrFileStart) c
    else
      slimLoopGo fuel rest c

/-- The `while (i < lines.length)` loop of `createSlimDiff`. -/
def slimLoop (lines : List String) (c : Nat) : List String :=
  slimLoopGo lines.length lines c

/-- `createSlimDiff` on the line model.  The guard
`!fullDiff || fullDiff.trim() === ''` holds exactly when every line is
whitespace-only, and the empty result `''` is the empty line list. -/
def createSlimDiff (d : List String) (c : Nat) : List String :=
  if d.all (fun l => strTrim l = "") then [] else slimLoop d c

/-! ## Diff File Filter (src/utils/diff-filter.ts, concatenated into
src/utils/logger.ts in the source tree: `filterDiffByFiles`,
`extractFilesFromDiff`) -/

/-- The two lazy groups of `/^diff --git a\/(.+?) b\/(.+?)$/` applied to the
characters after `diff --git a/`: `go` extends the first group one character
at a time (lazy `+?`), succeeding at the first position where the literal
` b/` follows and leaves a non-empty second group. -/
def diffHeaderGroupsGo (acc : List Char) : List Char → Option (List Char × List Char)
  | [] => none
  | x :: xs =>
    if charsStartWith " b/".data (x :: xs) then
      match (x :: xs).drop 3 with
      | [] => diffHeaderGroupsGo (acc ++ [x]) xs
      | b => some (acc, b)
    else diffHeaderGroupsGo (acc ++ [x]) xs

/-- Both capture groups require at least one character, so the first
character always belongs to the first group. -/
def diffHeaderGroups : List Char → Option (List Char × List Char)
  | [] => none
  | c :: cs => diffHeaderGroupsGo [c] cs

/-- `line.match(/^diff --git a\/(.+?) b\/(.+?)$/)`: the `a` path and the `b`
path of a git file-header line. -/
def parseDiffGitHeader (line : String) : Option (String × String) :=
  if charsStartWith "diff --git a/".data line.data then
    match diffHeaderGroups (line.data.drop 13) with
    | some (a, b) => some (⟨a⟩, ⟨b⟩)
    | none => none
  else none

/-- JavaScript truthiness-plus-membership of
`currentFile && normalizedFiles.has(currentFile)`: `null` and the empty
string are falsy. -/
def truthyMem (currentFile : Option String) (set : List String) : Bool :=
  match currentFile with
  | none => false
  | some f => !(f = "") && set.contains f

/-- The line loop of `filterDiffByFiles`, carrying `currentFile` and
`inFileSection`. -/
def filterLoop (set : List String) : List String → Option String → Bool → List String
  | [], _, _ => []
  | line :: rest, currentFile, inFileSection =>
    match parseDiffGitHeader line with
    | some (_, b) =>
      let inSec := set.contains b
      (if inSec then [line] else []) ++ filterLoop set rest (some b) inSec
    | none =>
      (if inFileSection && truthyMem currentFile set then [line] else [])
        ++ filterLoop set rest currentFile inFileSection

/-- `filterDiffByFiles` on the line model.  `normalizedFiles` is the set of
trimmed include paths; membership in the JavaScript `Set` is membership in
the trimmed list. -/
def filterDiffByFiles (d : List String) (filesToInclude : List String) : List String :=
  if d.all (fun l => strTrim l = "") then []
  else if filesToInclude.length = 0 then []
  else filterLoop (filesToInclude.map strTrim) d none false

/-- `extractFilesFromDiff`: the `b` paths of the file-header lines, first
occurrence first (a JavaScript `Set` iterates in insertion order). -/
def extractFilesFromDiff (d : List String) : List String :=
  d.foldl (fun acc line =>
    match parseDiffGitHeader line with
    | some (_, b) => if acc.contains b then acc else acc ++ [b]
    | none => acc) []

/-! ## Threadline pattern matching and the per-rule decision
(src/processors/single-expert.ts: `matchesPattern`, `processThreadline`) -/

/-- `Array.prototype.join(sep)`. -/
def strJoin (sep : String) : List String → String
  | [] => ""
  | [x] => x
  | x :: y :: xs => x ++ sep ++ strJoin sep (y :: xs)

/-- One token of the regex built by `matchesPattern`: `**` becomes `.*`,
`*` becomes `[^/]*`, `?` becomes `.`, and a literal `.` of the glob stays an
unescaped regex `.` (any character). -/
inductive GlobToken where
  | lit (c : Char)
  | anyChar
  | starSeg
  | starAll
deriving DecidableEq, Repr

/-- The replace chain of `matchesPattern`, reading the pattern left to
right (how the global `replace(/\*\*/g, …)` scans), for patterns free of
regex metacharacters other than `*`, `?` and `.`. -/
def globTokens : List Char → List GlobToken
  | [] => []
  | '*' :: '*' :: rest => .starAll :: globTokens rest
  | '*' :: rest => .starSeg :: globTokens rest
  | '?' :: rest => .anyChar :: globTokens rest
  | '.' :: rest => .anyChar :: globTokens rest
  | c :: rest => .lit c :: globTokens rest

/-- Matching of the anchored regex `^tokens$` against a character list.
`.` matches any character except a newline, `[^/]*` consumes characters
other than `/`, `.*` consumes characters other than a newline.  Every
recursive call shrinks `tokens.length + chars.length`, so that much fuel
suffices; matching is language membership, independent of engine strategy. -/
def tokensMatchGo : Nat → List GlobToken → List Char → Bool
  | 0, _, _ => false
  | _ + 1, [], [] => true
  | _ + 1, [], _ :: _ => false
  | _ + 1, .lit _ :: _, [] => false
  | fuel + 1, .lit c :: ts, x :: xs => c = x && tokensMatchGo fuel ts xs
  | _ + 1, .anyChar :: _, [] => false
  | fuel + 1, .anyChar :: ts, x :: xs => !(x = '\n') && tokensMatchGo fuel ts xs
  | fuel + 1, .starSeg :: ts, [] => tokensMatchGo fuel ts []
  | fuel + 1, .starSeg :: ts, x :: xs =>
    tokensMatchGo fuel ts (x :: xs) || (!(x = '/') && tokensMatchGo fuel (.starSeg :: ts) xs)
  | fuel + 1, .starAll :: ts, [] => tokensMatchGo fuel ts []
  | fuel + 1, .starAll :: ts, x :: xs =>
    tokensMatchGo fuel ts (x :: xs) || (!(x = '\n') && tokensMatchGo fuel (.starAll :: ts) xs)

/-- `matchesPattern(filePath, pattern)`: compile the glob to the regex and
test the whole path against it. -/
def matchesPattern (filePath pattern : String) : Bool :=
  let ts := globTokens pattern.data
  tokensMatchGo (ts.length + filePath.data.length + 1) ts filePath.data

/-- Outcome of the pure prefix of `processThreadline`, up to the point
where the network request would be issued: either the immediate
`not_relevant` result, or the data of the launched evaluation task. -/
inductive ThreadlineOutcome where
  | notRelevant (reasoning : String)
  | launched (relevantFiles : List String) (filteredDiff : List String)
      (filesInFilteredDiff : List String) (trimmedDiffForLLM : List String)
deriving DecidableEq, Repr

/-- Lines 37–66 of `processThreadline`: pattern-filter the changed files;
with no match return `not_relevant` without launching a task, otherwise
filter the diff to the matching files, extract the files actually present,
and slim the filtered diff for the model call. -/
def processThreadlineDecision (patterns : List String) (diff : List String)
    (files : List String) (contextLinesForLLM : Nat) : ThreadlineOutcome :=
  let relevantFiles := files.filter (fun file => patterns.any (fun p => matchesPattern file p))
  if relevantFiles.length = 0 then
    .notRelevant ("No files match threadline patterns: " ++ strJoin ", " patterns)
  else
    let filteredDiff := filterDiffByFiles diff relevantFiles
    let filesInFilteredDiff := extractFilesFromDiff filteredDiff
    .launched relevantFiles filteredDiff filesInFilteredDiff
      (createSlimDiff filteredDiff contextLinesForLLM)

/-! ## Concurrent dispatcher (processThreadlines, src/unnamed/part_007)

`processThreadline` catches every failure and fulfils with an `error`
result, so each `Promise.race([actualPromise, timeoutPromise])` fulfils:
with the task's own result when it resolves strictly before the 40 s timer
fires, and with the synthetic timeout result otherwise (also when the task
never resolves).  The race is modelled denotationally by the task's
resolution time (`none` = never resolves). -/

/-- The fields of `ExpertResult`/`ProcessThreadlineResult` that the
dispatcher reads or that the synthetic timeout result sets.  `errorType`
models `error.type` (`none` when no `error` member is present). -/
structure ExpertResult where
  expertId : String
  status : String
  reasoning : String
  errorType : Option String
  fileReferences : List String
  relevantFiles : List String
  filteredDiff : String
  filesInFilteredDiff : List String
deriving DecidableEq, Repr

/-- `const EXPERT_TIMEOUT = 40000; // 40 seconds`. -/
def EXPERT_TIMEOUT : Nat := 40000

/-- The synthetic result the timeout promise resolves with. -/
def timeoutResult (id : String) : ExpertResult :=
  { expertId := id
    status := "error"
    reasoning := "Error: Request timed out after 40s"
    errorType := some "timeout"
    fileReferences := []
    relevantFiles := []
    filteredDiff := ""
    filesInFilteredDiff := [] }

/-- Denotational behaviour of one `processThreadline(...)` promise: it
fulfils with `r` after `t` milliseconds, or it never settles. -/
inductive TaskBehavior where
  | resolves (t : Nat) (r : ExpertResult)
  | neverResolves
deriving DecidableEq, Repr

/-- One entry of the `threadlines` array together with the behaviour of its
evaluation task. -/
structure DispatchedThreadline where
  id : String
  behavior : TaskBehavior
deriving DecidableEq, Repr

/-- `Promise.race([actualPromise, timeoutPromise])`: the task's own result
when it settles strictly before the `EXPERT_TIMEOUT` timer, the synthetic
timeout result otherwise. -/
def raceWithTimeout (tl : DispatchedThreadline) : ExpertResult :=
  match tl.behavior with
  | .resolves t r => if t < EXPERT_TIMEOUT then r else timeoutResult tl.id
  | .neverResolves => timeoutResult tl.id

/-- Branch `status === 'error'` with `error?.type === 'timeout'` of the
aggregation loop. -/
def isTimedOutResult (r : ExpertResult) : Bool :=
  r.status = "error" && r.errorType = some "timeout"

/-- Branch `status === 'error'` without a timeout marker. -/
def isErrorResult (r : ExpertResult) : Bool :=
  r.status = "error" && !(r.errorType = some "timeout")

/-- The remaining branch: completed. -/
def isCompletedResult (r : ExpertResult) : Bool :=
  !(r.status = "error")

/-- The metadata block of `ProcessThreadlinesResponse`. -/
structure DispatchMetadata where
  totalThreadlines : Nat
  completed : Nat
  timedOut : Nat
  errors : Nat
deriving DecidableEq, Repr

/-- `ProcessThreadlinesResponse` (results plus aggregate counts). -/
structure DispatchResponse where
  results : List ExpertResult
  metadata : DispatchMetadata
deriving DecidableEq, Repr

/-- `processThreadlines`: race every task against the timeout, collect the
settled results in threadline order, and aggregate the counts — the loop
increments exactly one of the three counters per result, which is the
`countP` of the three disjoint branch conditions. -/
def processThreadlines (tls : List DispatchedThreadline) : DispatchResponse :=
  let results := tls.map raceWithTimeout
  { results := results
    metadata :=
      { totalThreadlines := tls.length
        completed := results.countP isCompletedResult
        timedOut := results.countP isTimedOutResult
        errors := results.countP isErrorResult } }

/-! ## Shallow-clone commit resolver (src/git/diff.ts, `getCommitDiff`)

The `execSync` collaborator is an environment mapping each git command to
its stdout or to a thrown error; the subprocess calls actually issued are
returned as a trace, in order. -/

/-- The `{ diff, changedFiles }` result of the diff resolvers. -/
structure GitDiffResult where
  diff : String
  changedFiles : List String
deriving DecidableEq, Repr

instance {ε α : Type} [DecidableEq ε] [DecidableEq α] : DecidableEq (Except ε α)
  | .error e1, .error e2 =>
    if h : e1 = e2 then .isTrue (by rw [h]) else .isFalse (by simp [h])
  | .error _, .ok _ => .isFalse (by simp)
  | .ok _, .error _ => .isFalse (by simp)
  | .ok a1, .ok a2 =>
    if h : a1 = a2 then .isTrue (by rw [h]) else .isFalse (by simp [h])

/-- One subprocess invocation of `getCommitDiff`. -/
inductive GitCmd where
  | catFile (sha : String)
  | fetch (obj : String)
  | diffU200 (parent sha : String)
  | diffNameOnly (parent sha : String)
deriving DecidableEq, Repr

/-- Behaviour of the git collaborator for one `getCommitDiff(repoRoot, sha)`
call: stdout (`Except.ok`) or a thrown error message (`Except.error`) for
each command the function can issue. -/
structure GitEnv where
  catFile : Except String String
  fetch : String → Except String Unit
  diffU200 : Except String String
  diffNameOnly : Except String String

/-- `Commit ${sha} has no parent (it might be the root commit of the
repository)`. -/
def noParentMsg (sha : String) : String :=
  "Commit " ++ sha ++ " has no parent (it might be the root commit of the repository)"

/-- `Malformed parent line in commit object: "${parentLine}"`. -/
def malformedParentMsg (parentLine : String) : String :=
  "Malformed parent line in commit object: \"" ++ parentLine ++ "\""

/-- `Invalid parent SHA format: "${parentSha}" (expected 40 characters)`. -/
def invalidParentShaMsg (p : String) : String :=
  "Invalid parent SHA format: \"" ++ p ++ "\" (expected 40 characters)"

/-- The catch-block wrapper around every failure of the parent-SHA stage. -/
def parentStageErrMsg (sha msg : String) : String :=
  "Failed to get parent commit SHA for " ++ sha
    ++ ". This is required to generate a proper diff. Error: " ++ msg

/-- The catch-block wrapper around a failed `git fetch origin <parent>`. -/
def fetchStageErrMsg (parentSha msg : String) : String :=
  "Failed to fetch parent commit " ++ parentSha
    ++ " from origin. This is required to generate a proper diff in shallow clones. "
    ++ "Ensure 'origin' remote is configured and accessible. Error: " ++ msg

/-- The catch-block wrapper around a failed diff stage. -/
def diffStageErrMsg (sha msg : String) : String :=
  "Failed to get diff for commit " ++ sha ++ ": " ++ msg

/-- `getCommitDiff(repoRoot, sha)`: read the raw commit object with the
plumbing `git cat-file -p`, take the first `parent ` line (absent for the
root commit → error), validate the parent SHA, fetch exactly that object,
then diff `parent..sha`.  The second component is the trace of issued
subprocess commands. -/
def getCommitDiff (env : GitEnv) (sha : String) :
    Except String GitDiffResult × List GitCmd :=
  let t0 := [GitCmd.catFile sha]
  match env.catFile with
  | .error e => (.error (parentStageErrMsg sha e), t0)
  | .ok commitObject =>
    match (strSplit commitObject '\n').find? (fun line => strStartsWith line "parent ") with
    | none => (.error (parentStageErrMsg sha (noParentMsg sha)), t0)
    | some parentLine =>
      let parts := strSplit parentLine ' '
      if parts.length < 2 || parts.getD 1 "" = "" then
        (.error (parentStageErrMsg sha (malformedParentMsg parentLine)), t0)
      else
        let parentSha := strTrim (parts.getD 1 "")
        if parentSha = "" || !(parentSha.data.length = 40) then
          (.error (parentStageErrMsg sha (invalidParentShaMsg parentSha)), t0)
        else
          let t1 := t0 ++ [GitCmd.fetch parentSha]
          match env.fetch parentSha with
          | .error e => (.error (fetchStageErrMsg parentSha e), t1)
          | .ok _ =>
            let t2 := t1 ++ [GitCmd.diffU200 parentSha sha]
            match env.diffU200 with
            | .error e => (.error (diffStageErrMsg sha e), t2)
            | .ok diff =>
              let t3 := t2 ++ [GitCmd.diffNameOnly parentSha sha]
              match env.diffNameOnly with
              | .error e => (.error (diffStageErrMsg sha e), t3)
              | .ok nameOnly =>
                let t := strTrim nameOnly
                (.ok { diff := diff
                       changedFiles := if t = "" then [] else strSplit t '\n' }, t3)

/-! ## Local working-tree resolver (src/unnamed/part_016, `getDiff`) -/

/-- Behaviour of the collaborators `getDiff` consults: the stdout of each
git command, and the filesystem for untracked files (`isFile` models
`fs.statSync(f).isFile()`, `readFile` models `fs.readFileSync(f)`; both are
keyed by the path as listed by `git status`). -/
structure LocalEnv where
  statusPorcelain : String
  stagedNameOnly : String
  cachedDiff : String
  unstagedDiff : String
  unstagedNameOnly : String
  isFile : String → Bool
  readFile : String → String

/-- `charAt`-style indexing: `line[i]` of JavaScript is `undefined` past the
end, modelled as `none`. -/
def charAt (s : String) (i : Nat) : Option Char :=
  (s.data.drop i).head?

/-- The `git status --porcelain` parsing loop of `getDiff`: partition the
status lines into `(staged, unstaged, untracked)` file names, in order.
`undefined !== ' '` is true, so a missing status character is treated as a
change marker, exactly as in JavaScript. -/
def statusPartition (statusOutput : String) : List String × List String × List String :=
  let trimmed := strTrim statusOutput
  let lines := if trimmed = "" then [] else strSplit trimmed '\n'
  lines.foldl
    (fun acc line =>
      let s0 := charAt line 0
      let s1 := charAt line 1
      if s0 = some '?' && s1 = some '?' then
        (acc.1, acc.2.1, acc.2.2 ++ [⟨line.data.drop 3⟩])
      else
        let file : String :=
          if !(s0 = some ' ') && s1 = some ' ' then ⟨line.data.drop 2⟩
          else ⟨line.data.drop 3⟩
        ((if !(s0 = some ' ') then acc.1 ++ [file] else acc.1),
         (if !(s1 = some ' ') && !(s1 = some '?') then acc.2.1 ++ [file] else acc.2.1),
         acc.2.2))
    ([], [], [])

/-- `file.replace(/\\/g, '/')`. -/
def normalizePath (f : String) : String :=
  ⟨f.data.map (fun c => if c = '\\' then '/' else c)⟩

/-- The artificial all-added diff `getDiff` synthesizes for one untracked
file from its content. -/
def untrackedFileDiff (file content : String) : String :=
  let np := normalizePath file
  let lines := strSplit content '\n'
  "diff --git a/" ++ np ++ " b/" ++ np ++ "\n--- /dev/null\n+++ b/" ++ np
    ++ "\n@@ -0,0 +1," ++ toString lines.length ++ " @@\n"
    ++ strJoin "\n" (lines.map (fun line => "+" ++ line))

/-- Error thrown when staged files exist but `git diff --cached` is empty. -/
def stagedEmptyDiffMsg (stagedFiles : List String) : String :=
  "Staged files exist but diff is empty. This may indicate binary files, "
    ++ "whitespace-only changes, or a git issue. Staged files: "
    ++ strJoin ", " stagedFiles

/-- Error thrown when neither staged, unstaged nor untracked changes exist. -/
def noChangesMsg : String :=
  "No changes detected. Stage files with \"git add\" or modify files to run threadlines."

/-- `getDiff` of the Local environment: check `git diff --cached
--name-only` for staged files first; when any exist, review exactly the
staged diff (Workflow A).  Otherwise combine the unstaged diff with
synthetic all-added sections for untracked files (Workflow B), and fail
when there is nothing at all. -/
def getDiff (env : LocalEnv) : Except String GitDiffResult :=
  let part := statusPartition env.statusPorcelain
  let unstaged := part.2.1
  let untracked := part.2.2
  let stagedOut := strTrim env.stagedNameOnly
  let actualStagedFiles := if stagedOut = "" then [] else strSplit stagedOut '\n'
  if actualStagedFiles.length > 0 then
    if strTrim env.cachedDiff = "" then
      .error (stagedEmptyDiffMsg actualStagedFiles)
    else
      .ok { diff := env.cachedDiff, changedFiles := actualStagedFiles }
  else if unstaged.length > 0 || untracked.length > 0 then
    let diff := if unstaged.length > 0 then env.unstagedDiff else ""
    let changedFiles :=
      if unstaged.length > 0 then
        let out := strTrim env.unstagedNameOnly
        if out = "" then [] else strSplit out '\n'
      else []
    let untrackedFiles := untracked.filter (fun f => env.isFile f)
    let untrackedDiffs := untrackedFiles.map (fun f => untrackedFileDiff f (env.readFile f))
    let untrackedFileList := untrackedFiles.map normalizePath
    let combinedDiff :=
      if untrackedDiffs.length > 0 then
        (if !(diff = "") then diff ++ "\n" else "") ++ strJoin "\n" untrackedDiffs
      else diff
    .ok { diff := combinedDiff, changedFiles := changedFiles ++ untrackedFileList }
  else
    .error noChangesMsg

/-! ## The check command's changed-file gate (src/commands/check.ts) -/

/-- What `checkCommand` does right after the change-set is resolved and
before context files are read or any rule evaluation is dispatched. -/
inductive CheckGateOutcome where
  | exitNoChanges
  | exitTooManyFiles
  | continueRun
deriving DecidableEq, Repr

/-- `const MAX_CHANGED_FILES = 20`. -/
def MAX_CHANGED_FILES : Nat := 20

/-- The two early exits of `checkCommand` keyed on the changed-file list:
`process.exit(0)` when it is empty, `process.exit(1)` when it exceeds
`MAX_CHANGED_FILES`; only `continueRun` reaches the context-file reading
and the dispatcher. -/
def checkChangedFilesGate (changedFiles : List String) : CheckGateOutcome :=
  if changedFiles.length = 0 then .exitNoChanges
  else if changedFiles.length > MAX_CHANGED_FILES then .exitTooManyFiles
  else .continueRun

/-- Exit code of the early exits (`none` = the run continues). -/
def gateExitCode : CheckGateOutcome → Option Nat
  | .exitNoChanges => some 0
  | .exitTooManyFiles => some 1
  | .continueRun => none

/-! ## Remote-URL credential stripping (src/git/diff.ts,
`sanitizeRepoUrl`, `getRepoUrl`) -/

/-- `([^@]+@)` after the scheme: when at least one non-`@` character
followed by `@` comes right after the scheme, replace the whole match with
the scheme capture (delete everything up to and including the first `@`);
otherwise the regex does not match and the URL is unchanged. -/
def stripCredentials (d : List Char) (schemeLen : Nat) (url : String) : String :=
  match (d.drop schemeLen).dropWhile (fun c => !(c = '@')),
        (d.drop schemeLen).takeWhile (fun c => !(c = '@')) with
  | '@' :: after, _ :: _ => String.mk (d.take schemeLen ++ after)
  | _, _ => url

/-- `url.replace(/^(https?:\/\/)([^@]+@)/, '$1')`. -/
def sanitizeRepoUrl (url : String) : String :=
  if charsStartWith "https://".data url.data then stripCredentials url.data 8 url
  else if charsStartWith "http://".data url.data then stripCredentials url.data 7 url
  else url

/-- `getRepoUrl`: trim the stdout of `git remote get-url origin`, reject an
empty URL, and strip embedded credentials; every failure is wrapped by the
catch block. -/
def getRepoUrl (remoteGetUrlOrigin : Except String String) : Except String String :=
  match remoteGetUrlOrigin with
  | .error e =>
    .error ("Failed to get repository URL from git remote. Ensure 'origin' remote is configured. Error: " ++ e)
  | .ok out =>
    let url := strTrim out
    if url = "" then
      .error ("Failed to get repository URL from git remote. Ensure 'origin' remote is configured. Error: "
        ++ "Empty URL returned")
    else
      .ok (sanitizeRepoUrl url)

/-- "Removed" line count of a hunk-line list (spec terminology). -/
def removedCount (ls : List String) : Nat :=
  ls.countP (fun l => strStartsWith l "-")

/-- "Added" line count of a hunk-line list (spec terminology). -/
def addedCount (ls : List String) : Nat :=
  ls.countP (fun l => strStartsWith l "+")

/-- "Context" line count: lines that are neither Added nor Removed. -/
def contextCount (ls : List String) : Nat :=
  ls.countP (fun l => !(strStartsWith l "+") && !(strStartsWith l "-"))

/-- Decidable well-formedness: a non-empty diff starts with a parseable
`diff --git a/… b/…` header line. -/
def firstLineIsFileHeader : List String → Bool
  | [] => true
  | l0 :: _ => (parseDiffGitHeader l0).isSome

/-- Decidable well-formedness: the `b` path of a header line carries no
surrounding whitespace (it is `trim`-invariant). -/
def headerPathClean (line : String) : Bool :=
  match parseDiffGitHeader line with
  | some (_, b) => strTrim b = b
  | none => true

/-- A fetch command of the `getCommitDiff` trace. -/
def isFetchCmd : GitCmd → Bool
  | .fetch _ => true
  | _ => false

/-! ## Concrete fixtures used by the witness theorems -/

/-- A concrete successfully-resolving result, for the C1 witness run. -/
def c1OkResult : ExpertResult :=
  { expertId := "a"
    status := "compliant"
    reasoning := "ok"
    errorType := none
    fileReferences := []
    relevantFiles := []
    filteredDiff := ""
    filesInFilteredDiff := [] }

/-- A concrete two-rule dispatch where the second rule never resolves. -/
def c1Tls : List DispatchedThreadline :=
  [{ id := "a", behavior := .resolves 5 c1OkResult },
   { id := "b", behavior := .neverResolves }]

/-- Root-commit environment for the C4 witness. -/
def c4Env1 : GitEnv :=
  { catFile := .ok "tree t\nauthor a"
    fetch := fun _ => .ok ()
    diffU200 := .ok ""
    diffNameOnly := .ok "" }

/-- A commit object with one parent line (40-character parent SHA). -/
def c4CommitObj : String :=
  "tree t\nparent 0123456789012345678901234567890123456789\nauthor a"

/-- The parent line of `c4CommitObj`. -/
def c4ParentLine : String :=
  "parent 0123456789012345678901234567890123456789"

/-- Environment whose parent fetch fails, for the C4 witness. -/
def c4Env2 : GitEnv :=
  { catFile := .ok c4CommitObj
    fetch := fun _ => .error "network unreachable"
    diffU200 := .ok ""
    diffNameOnly := .ok "" }

/-- Environment whose parent fetch succeeds, for the C4 witness. -/
def c4Env3 : GitEnv :=
  { catFile := .ok c4CommitObj
    fetch := fun _ => .ok ()
    diffU200 := .ok "D"
    diffNameOnly := .ok "a.ts" }

/-- Local environment with staged, unstaged and untracked changes all
present, for the C8 witness. -/
def c8Env : LocalEnv :=
  { statusPorcelain := "M  a.ts\n M b.ts\n?? c.ts"
    stagedNameOnly := "a.ts\n"
    cachedDiff := "diff --git a/a.ts b/a.ts\n@@ -1,1 +1,1 @@\n-x\n+y"
    unstagedDiff := "diff --git a/b.ts b/b.ts\n@@ -1,1 +1,1 @@\n-u\n+v"
    unstagedNameOnly := "b.ts"
    isFile := fun _ => true
    readFile := fun _ => "zz" }

/-- Same staged outputs as `c8Env` but entirely different unstaged and
untracked state, for the C8 witness. -/
def c8EnvOther : LocalEnv :=
  { statusPorcelain := "M  a.ts\n M other.ts\n?? new1.ts\n?? new2.ts"
    stagedNameOnly := "a.ts\n"
    cachedDiff := "diff --git a/a.ts b/a.ts\n@@ -1,1 +1,1 @@\n-x\n+y"
    unstagedDiff := "diff --git a/other.ts b/other.ts\n@@ -1,1 +1,1 @@\n-q\n+w"
    unstagedNameOnly := "other.ts"
    isFile := fun _ => true
    readFile := fun _ => "body" }

/-- A two-file diff, for the C6 witness. -/
def c6Diff : List String :=
  ["diff --git a/a.ts b/a.ts", "--- a/a.ts", "+++ b/a.ts",
   "@@ -1,1 +1,1 @@", "-x", "+y",
   "diff --git a/b.ts b/b.ts", "--- a/b.ts", "+++ b/b.ts",
   "@@ -1,1 +1,1 @@", "-u", "+v"]

/-! ## Helper lemmas -/

theorem charsStartWith_iff (ps : List Char) : ∀ l : List Char,
    charsStartWith ps l = true ↔ ∃ cs, l = ps ++ cs := by
  induction ps with
  | nil => intro l; simp [charsStartWith]
  | cons p ps ih =>
    intro l
    cases l with
    | nil => simp [charsStartWith]
    | cons c cs =>
      simp only [charsStartWith, Bool.and_eq_true, decide_eq_true_eq, ih,
        List.cons_append, List.cons.injEq]
      constructor
      · rintro ⟨rfl, t, rfl⟩
        exact ⟨t, rfl, rfl⟩
      · rintro ⟨t, rfl, rfl⟩
        exact ⟨rfl, t, rfl⟩

theorem strTrim_ne_empty {s : String} {c : Char} {cs : List Char}
    (hd : s.data = c :: cs) (hc : wsChar c = false) : ¬(strTrim s = "") := by
  intro h
  have hdata : (((s.data.dropWhile wsChar).reverse.dropWhile wsChar).reverse : List Char)
      = [] := congrArg String.data h
  rw [List.reverse_eq_nil_iff, List.dropWhile_eq_nil_iff] at hdata
  have h1 : s.data.dropWhile wsChar = s.data := by
    rw [hd, List.dropWhile_cons, hc]; simp
  have hcmem : c ∈ (s.data.dropWhile wsChar).reverse := by
    rw [h1, List.mem_reverse, hd]; exact List.mem_cons_self c cs
  have := hdata c hcmem
  rw [hc] at this
  exact Bool.false_ne_true this

theorem takeWhile_all_append {α : Type} (p : α → Bool) (y : α) (ys : List α)
    (hy : p y = false) : ∀ xs : List α, (∀ x ∈ xs, p x = true) →
    (xs ++ y :: ys).takeWhile p = xs := by
  intro xs
  induction xs with
  | nil => intro _; simp [List.takeWhile_cons, hy]
  | cons a l ih =>
    intro hx
    have ha := hx a (List.mem_cons_self a l)
    simp only [List.cons_append, List.takeWhile_cons, ha, if_true]
    rw [ih (fun x hx' => hx x (List.mem_cons_of_mem a hx'))]

theorem dropWhile_all_append {α : Type} (p : α → Bool) (y : α) (ys : List α)
    (hy : p y = false) : ∀ xs : List α, (∀ x ∈ xs, p x = true) →
    (xs ++ y :: ys).dropWhile p = y :: ys := by
  intro xs
  induction xs with
  | nil => intro _; simp [List.dropWhile_cons, hy]
  | cons a l ih =>
    intro hx
    have ha := hx a (List.mem_cons_self a l)
    simp only [List.cons_append, List.dropWhile_cons, ha, if_true]
    exact ih (fun x hx' => hx x (List.mem_cons_of_mem a hx'))

theorem takeWhile_all {α : Type} (p : α → Bool) : ∀ l : List α,
    (∀ x ∈ l, p x = true) → l.takeWhile p = l := by
  intro l
  induction l with
  | nil => intro _; rfl
  | cons a t ih =>
    intro hx
    have ha := hx a (List.mem_cons_self a t)
    simp only [List.takeWhile_cons, ha, if_true]
    rw [ih (fun x hx' => hx x (List.mem_cons_of_mem a hx'))]

theorem not_plus_of_minus {l : String} (hm : strStartsWith l "-" = true) :
    strStartsWith l "+" = false := by
  have h1 : ("-" : String).data = ['-'] := rfl
  have h2 : ("+" : String).data = ['+'] := rfl
  simp only [strStartsWith, h1, h2] at hm ⊢
  rw [charsStartWith_iff] at hm
  obtain ⟨cs, hcs⟩ := hm
  rw [hcs]
  simp [charsStartWith]

theorem not_diffgit_of_atat {l : String} (h : strStartsWith l "@@" = true) :
    strStartsWith l "diff --git " = false := by
  have h1 : ("@@" : String).data = ['@', '@'] := rfl
  have h2 : ("diff --git " : String).data
      = ['d', 'i', 'f', 'f', ' ', '-', '-', 'g', 'i', 't', ' '] := rfl
  simp only [strStartsWith, h1, h2] at h ⊢
  rw [charsStartWith_iff] at h
  obtain ⟨cs, hcs⟩ := h
  rw [hcs]
  simp [charsStartWith]

theorem oldLineCount_split (ls : List String) :
    oldLineCount ls = removedCount ls + contextCount ls := by
  induction ls with
  | nil => rfl
  | cons l t ih =>
    simp only [oldLineCount, removedCount, contextCount, List.countP_cons] at ih ⊢
    cases hp : strStartsWith l "+" with
    | true =>
      cases hm : strStartsWith l "-" with
      | true =>
        have h := not_plus_of_minus hm
        rw [hp] at h
        exact absurd h (by simp)
      | false => simp [hp, hm]; omega
    | false =>
      cases hm : strStartsWith l "-" with
      | true => simp [hp, hm]; omega
      | false => simp [hp, hm]; omega

theorem newLineCount_split (ls : List String) :
    newLineCount ls = addedCount ls + contextCount ls := by
  induction ls with
  | nil => rfl
  | cons l t ih =>
    simp only [newLineCount, addedCount, contextCount, List.countP_cons] at ih ⊢
    cases hp : strStartsWith l "+" with
    | true =>
      cases hm : strStartsWith l "-" with
      | true =>
        have h := not_plus_of_minus hm
        rw [hp] at h
        exact absurd h (by simp)
      | false => simp [hp, hm]; omega
    | false =>
      cases hm : strStartsWith l "-" with
      | true => simp [hp, hm]; omega
      | false => simp [hp, hm]; omega

theorem keepCond_le {hl : List String} {c1 c2 j : Nat} (h : c1 ≤ c2)
    (hj : keepCond hl c1 j = true) : keepCond hl c2 j = true := by
  simp only [keepCond, List.any_eq_true, Bool.and_eq_true, decide_eq_true_eq] at hj ⊢
  obtain ⟨ci, hmem, h1, h2⟩ := hj
  exact ⟨ci, hmem, by omega, by omega⟩

theorem sortedKeepIndices_length_le (hl : List String) {c1 c2 : Nat} (h : c1 ≤ c2) :
    (sortedKeepIndices hl c1).length ≤ (sortedKeepIndices hl c2).length := by
  simp only [sortedKeepIndices]
  rw [← List.countP_eq_length_filter, ← List.countP_eq_length_filter]
  exact List.countP_mono_left (fun j _ hj => keepCond_le h hj)

theorem processHunk_length_le (header : String) (hl : List String) {c1 c2 : Nat}
    (h : c1 ≤ c2) :
    (processHunk header hl c1).length ≤ (processHunk header hl c2).length := by
  unfold processHunk
  split
  · exact Nat.le_refl _
  · cases hp : parseHunkHeader header with
    | none => simp
    | some v =>
      obtain ⟨o, n, t⟩ := v
      simp only [List.length_cons, slimHunkLines, List.length_map]
      exact Nat.succ_le_succ (sortedKeepIndices_length_le hl h)

theorem slimLoopGo_length_le {c1 c2 : Nat} (h : c1 ≤ c2) :
    ∀ (fuel : Nat) (lines : List String),
      (slimLoopGo fuel lines c1).length ≤ (slimLoopGo fuel lines c2).length := by
  intro fuel
  induction fuel with
  | zero => intro lines; cases lines <;> simp [slimLoopGo]
  | succ n ih =>
    intro lines
    cases lines with
    | nil => simp [slimLoopGo]
    | cons l rest =>
      simp only [slimLoopGo]
      split
      · simp only [List.length_cons, List.length_append]
        have := ih (rest.dropWhile notHunkStart)
        omega
      · split
        · simp only [List.length_append]
          have h1 := processHunk_length_le l (rest.takeWhile notHunkOrFileStart) h
          have h2 := ih (rest.dropWhile notHunkOrFileStart)
          omega
        · exact ih rest

/-- Claim C5: For every diff text `d` (given as its list of lines) and all
context budgets `c1 ≤ c2`, `createSlimDiff` keeps at least as many lines
under the larger budget: the output line count is monotone in the
context-line budget. -/
theorem createSlimDiff_line_count_monotone (d : List String) {c1 c2 : Nat}
    (h : c1 ≤ c2) :
    (createSlimDiff d c1).length ≤ (createSlimDiff d c2).length := by
  unfold createSlimDiff slimLoop
  split
  · exact Nat.le_refl _
  · exact slimLoopGo_length_le h d.length d

theorem createSlimDiff_line_count_monotone_witness :
    (0 : Nat) ≤ 2 ∧
      (createSlimDiff ["diff --git a/x b/x", "--- a/x", "+++ b/x",
        "@@ -1,5 +1,5 @@", " a", " b", "+c", " d", " e"] 0).length
      ≤ (createSlimDiff ["diff --git a/x b/x", "--- a/x", "+++ b/x",
        "@@ -1,5 +1,5 @@", " a", " b", "+c", " d", " e"] 2).length :=
  ⟨by decide, createSlimDiff_line_count_monotone _ (by decide)⟩

/-- Claim C7: For a surviving hunk (a hunk with at least one change line and
a header the regex matches), `createSlimDiff` emits a recomputed header
whose new old start is the original `oldStart` plus the old-line count
(Removed plus Context) of the hunk lines before the first retained index,
whose new new start is the original `newStart` plus the analogous new-line
count (Added plus Context), and whose `oldCount`/`newCount` are recomputed
from the retained lines themselves (Context counting toward both, Removed
only toward old, Added only toward new). -/
theorem slim_recomputes_hunk_header (header : String) (hl : List String)
    (c oldStart newStart : Nat) (title : String)
    (hp : parseHunkHeader header = some (oldStart, newStart, title))
    (hch : ¬(changeIndices hl = [])) :
    processHunk header hl c =
      mkHunkHeader
        (oldStart + (removedCount (hl.take ((sortedKeepIndices hl c).headD 0))
          + contextCount (hl.take ((sortedKeepIndices hl c).headD 0))))
        (removedCount (slimHunkLines hl c) + contextCount (slimHunkLines hl c))
        (newStart + (addedCount (hl.take ((sortedKeepIndices hl c).headD 0))
          + contextCount (hl.take ((sortedKeepIndices hl c).headD 0))))
        (addedCount (slimHunkLines hl c) + contextCount (slimHunkLines hl c))
        title
      :: slimHunkLines hl c := by
  simp only [processHunk, if_neg hch, hp]
  rw [oldLineCount_split, oldLineCount_split, newLineCount_split, newLineCount_split]

theorem slim_recomputes_hunk_header_witness :
    parseHunkHeader "@@ -1,5 +1,5 @@" = some (1, 1, "")
    ∧ ¬(changeIndices [" a", " b", "+c", " d", " e"] = [])
    ∧ processHunk "@@ -1,5 +1,5 @@" [" a", " b", "+c", " d", " e"] 1 =
        mkHunkHeader
          (1 + (removedCount ([" a", " b", "+c", " d", " e"].take
              ((sortedKeepIndices [" a", " b", "+c", " d", " e"] 1).headD 0))
            + contextCount ([" a", " b", "+c", " d", " e"].take
              ((sortedKeepIndices [" a", " b", "+c", " d", " e"] 1).headD 0))))
          (removedCount (slimHunkLines [" a", " b", "+c", " d", " e"] 1)
            + contextCount (slimHunkLines [" a", " b", "+c", " d", " e"] 1))
          (1 + (addedCount ([" a", " b", "+c", " d", " e"].take
              ((sortedKeepIndices [" a", " b", "+c", " d", " e"] 1).headD 0))
            + contextCount ([" a", " b", "+c", " d", " e"].take
              ((sortedKeepIndices [" a", " b", "+c", " d", " e"] 1).headD 0))))
          (addedCount (slimHunkLines [" a", " b", "+c", " d", " e"] 1)
            + contextCount (slimHunkLines [" a", " b", "+c", " d", " e"] 1))
          ""
        :: slimHunkLines [" a", " b", "+c", " d", " e"] 1 :=
  ⟨by decide, by decide,
    slim_recomputes_hunk_header "@@ -1,5 +1,5 @@" [" a", " b", "+c", " d", " e"]
      1 1 1 "" (by decide) (by decide)⟩

/-- Claim C9: Whenever the resolved change-set has more than
`MAX_CHANGED_FILES = 20` changed files, the check command's gate exits with
code 1, before the context-file reading and the dispatcher are reached
(only `continueRun` reaches them). -/
theorem check_gate_exits_on_too_many_files (changedFiles : List String)
    (h : changedFiles.length > MAX_CHANGED_FILES) :
    checkChangedFilesGate changedFiles = .exitTooManyFiles
    ∧ gateExitCode (checkChangedFilesGate changedFiles) = some 1 := by
  have h20 : changedFiles.length > 20 := h
  have h0 : ¬(changedFiles.length = 0) := by omega
  unfold checkChangedFilesGate
  rw [if_neg h0, if_pos h]
  exact ⟨rfl, rfl⟩

theorem check_gate_exits_on_too_many_files_witness :
    (List.replicate 21 "f").length > MAX_CHANGED_FILES
    ∧ (checkChangedFilesGate (List.replicate 21 "f") = .exitTooManyFiles
       ∧ gateExitCode (checkChangedFilesGate (List.replicate 21 "f")) = some 1) :=
  ⟨by decide, check_gate_exits_on_too_many_files _ (by decide)⟩

/-- Claim C2 counterexample: A diff with one file section whose single hunk
has only context lines: the hunk is dropped, but the file-header block
(`diff --git` line plus metadata) stays in the output with zero hunks, so
the output does contain a `diff --git` block followed by no hunk. -/
theorem slim_changeless_file_section_counterexample :
    createSlimDiff ["diff --git a/x b/x", "index 1..2", "--- a/x", "+++ b/x",
      "@@ -1,2 +1,2 @@", " a", " b"] 3
      = ["diff --git a/x b/x", "index 1..2", "--- a/x", "+++ b/x"]
    ∧ (createSlimDiff ["diff --git a/x b/x", "index 1..2", "--- a/x", "+++ b/x",
        "@@ -1,2 +1,2 @@", " a", " b"] 3).any
        (fun l => strStartsWith l "diff --git ") = true
    ∧ (createSlimDiff ["diff --git a/x b/x", "index 1..2", "--- a/x", "+++ b/x",
        "@@ -1,2 +1,2 @@", " a", " b"] 3).any
        (fun l => strStartsWith l "@@") = false := by decide

/-- Claim C2 (amended): `createSlimDiff` drops entirely every hunk whose
lines contain no Added or Removed line, but a file section all of whose
hunks are dropped is not removed: its `diff --git` header line and its
metadata lines remain in the output, followed by zero hunks. -/
theorem slim_drops_changeless_hunks_keeps_header
    (c : Nat) (fh h : String) (meta hl : List String)
    (hfh : strStartsWith fh "diff --git " = true)
    (hmeta : ∀ l ∈ meta, strStartsWith l "@@" = false)
    (hh : strStartsWith h "@@" = true)
    (hhl : ∀ l ∈ hl, strStartsWith l "@@" = false ∧ strStartsWith l "diff --git " = false)
    (hnochange : ∀ l ∈ hl, isChangeLine l = false) :
    createSlimDiff (fh :: meta ++ h :: hl) c = fh :: meta := by
  rw [List.cons_append]
  obtain ⟨cs, hcs⟩ := (charsStartWith_iff _ _).mp hfh
  have hfhd : fh.data = 'd' :: ("iff --git ".data ++ cs) := by
    rw [hcs]; rfl
  have hblank := strTrim_ne_empty hfhd (by decide)
  have hguard : ¬((fh :: (meta ++ h :: hl)).all (fun l => strTrim l = "") = true) := by
    intro habs
    rw [List.all_eq_true] at habs
    exact hblank (by simpa using habs fh (List.mem_cons_self _ _))
  unfold createSlimDiff slimLoop
  rw [if_neg hguard]
  have hlen : (fh :: (meta ++ h :: hl)).length = (meta.length + hl.length + 1) + 1 := by
    simp [List.length_append]
    omega
  rw [hlen]
  simp only [slimLoopGo]
  rw [if_pos hfh]
  have htake : (meta ++ h :: hl).takeWhile notHunkStart = meta :=
    takeWhile_all_append notHunkStart h hl (by simp [notHunkStart, hh]) meta
      (fun x hx => by simp [notHunkStart, hmeta x hx])
  have hdrop : (meta ++ h :: hl).dropWhile notHunkStart = h :: hl :=
    dropWhile_all_append notHunkStart h hl (by simp [notHunkStart, hh]) meta
      (fun x hx => by simp [notHunkStart, hmeta x hx])
  rw [htake, hdrop]
  simp only [slimLoopGo]
  rw [if_neg (by simp [not_diffgit_of_atat hh]), if_pos hh]
  have htake2 : hl.takeWhile notHunkOrFileStart = hl :=
    takeWhile_all notHunkOrFileStart hl
      (fun x hx => by simp [notHunkOrFileStart, (hhl x hx).1, (hhl x hx).2])
  have hdrop2 : hl.dropWhile notHunkOrFileStart = [] :=
    List.dropWhile_eq_nil_iff.mpr
      (fun x hx => by simp [notHunkOrFileStart, (hhl x hx).1, (hhl x hx).2])
  rw [htake2, hdrop2]
  have hci : changeIndices hl = [] := by
    unfold changeIndices
    rw [List.filter_eq_nil_iff]
    intro j hj
    rw [List.mem_range] at hj
    have hmem : hl[j] ∈ hl := List.getElem_mem hj
    rw [List.getD_eq_getElem hl "" hj]
    simp [hnochange _ hmem]
  have hph : processHunk h hl c = [] := by
    unfold processHunk
    rw [if_pos hci]
  rw [hph]
  simp [slimLoopGo]

theorem slim_drops_changeless_hunks_keeps_header_witness :
    strStartsWith "diff --git a/x b/x" "diff --git " = true
    ∧ (∀ l ∈ ["index 1..2", "--- a/x", "+++ b/x"], strStartsWith l "@@" = false)
    ∧ strStartsWith "@@ -1,2 +1,2 @@" "@@" = true
    ∧ (∀ l ∈ [" a", " b"], strStartsWith l "@@" = false
        ∧ strStartsWith l "diff --git " = false)
    ∧ (∀ l ∈ [" a", " b"], isChangeLine l = false)
    ∧ createSlimDiff ("diff --git a/x b/x" :: ["index 1..2", "--- a/x", "+++ b/x"]
        ++ "@@ -1,2 +1,2 @@" :: [" a", " b"]) 3
        = "diff --git a/x b/x" :: ["index 1..2", "--- a/x", "+++ b/x"] :=
  ⟨by decide, by decide, by decide, by decide, by decide,
    slim_drops_changeless_hunks_keeps_header 3 "diff --git a/x b/x" "@@ -1,2 +1,2 @@"
      ["index 1..2", "--- a/x", "+++ b/x"] [" a", " b"]
      (by decide) (by decide) (by decide) (by decide) (by decide)⟩

/-- Claim C10 counterexample: A URL whose `@` sits in the path, not in a
userinfo component: the claim says such URLs are returned unchanged, but
the replace regex deletes everything between the scheme and the first `@`. -/
theorem sanitize_repo_url_counterexample :
    sanitizeRepoUrl "https://github.com/user/repo@v2" = "https://v2"
    ∧ ¬(sanitizeRepoUrl "https://github.com/user/repo@v2"
        = "https://github.com/user/repo@v2") := by decide

theorem charsStartWith_append (p r : List Char) :
    charsStartWith p (p ++ r) = true :=
  (charsStartWith_iff p (p ++ r)).mpr ⟨r, rfl⟩

theorem not_https_of_http (x : List Char) :
    charsStartWith "https://".data (("http://" : String).data ++ x) = false := by
  have h1 : ("https://" : String).data
      = 'h' :: 't' :: 't' :: 'p' :: 's' :: ':' :: '/' :: '/' :: [] := rfl
  have h2 : ("http://" : String).data
      = 'h' :: 't' :: 't' :: 'p' :: ':' :: '/' :: '/' :: [] := rfl
  rw [h1, h2]
  simp [charsStartWith]

/-- Claim C10 (amended): `sanitizeRepoUrl` strips credentials: for a URL
`http(s)://<userinfo>@<rest>` whose userinfo is non-empty and `@`-free, the
result is `http(s)://<rest>` — more generally everything between the scheme
and the first `@` is deleted, even when that span crosses `/`; and a URL
whose part after the scheme contains no `@` at all is returned unchanged
(a URL with an `@` later in its path is **not** returned unchanged). -/
theorem sanitize_repo_url_strips_through_first_at (scheme : String)
    (hs : scheme = "https://" ∨ scheme = "http://")
    (userinfo hostpath : List Char)
    (hu : ¬(userinfo = []))
    (hat : ∀ ch ∈ userinfo, ¬(ch = '@')) :
    sanitizeRepoUrl ⟨scheme.data ++ userinfo ++ '@' :: hostpath⟩
      = ⟨scheme.data ++ hostpath⟩
    ∧ ∀ rest : List Char, (∀ ch ∈ rest, ¬(ch = '@')) →
        sanitizeRepoUrl ⟨scheme.data ++ rest⟩ = ⟨scheme.data ++ rest⟩ := by
  have hstrip : ∀ slen : Nat, slen = scheme.data.length →
      stripCredentials (scheme.data ++ (userinfo ++ '@' :: hostpath)) slen
        ⟨scheme.data ++ (userinfo ++ '@' :: hostpath)⟩
      = ⟨scheme.data ++ hostpath⟩ := by
    intro slen hslen
    unfold stripCredentials
    rw [hslen, List.drop_left, List.take_left]
    have hdw : (userinfo ++ '@' :: hostpath).dropWhile (fun c => !(c = '@'))
        = '@' :: hostpath :=
      dropWhile_all_append _ _ _ (by simp) userinfo (fun x hx => by simp [hat x hx])
    have htw : (userinfo ++ '@' :: hostpath).takeWhile (fun c => !(c = '@'))
        = userinfo :=
      takeWhile_all_append _ _ _ (by simp) userinfo (fun x hx => by simp [hat x hx])
    rw [hdw, htw]
    cases userinfo with
    | nil => exact absurd rfl hu
    | cons u us => rfl
  have hunchanged : ∀ slen : Nat, slen = scheme.data.length →
      ∀ rest : List Char, (∀ ch ∈ rest, ¬(ch = '@')) →
      stripCredentials (scheme.data ++ rest) slen ⟨scheme.data ++ rest⟩
        = ⟨scheme.data ++ rest⟩ := by
    intro slen hslen rest hrest
    unfold stripCredentials
    rw [hslen, List.drop_left]
    have hdw : rest.dropWhile (fun c => !(c = '@')) = [] :=
      List.dropWhile_eq_nil_iff.mpr (fun x hx => by simp [hrest x hx])
    rw [hdw]
  rcases hs with rfl | rfl
  · constructor
    · show sanitizeRepoUrl ⟨("https://" : String).data ++ (userinfo ++ '@' :: hostpath)⟩ = _
      unfold sanitizeRepoUrl
      rw [if_pos (charsStartWith_append _ _)]
      exact hstrip 8 rfl
    · intro rest hrest
      show sanitizeRepoUrl ⟨("https://" : String).data ++ rest⟩ = _
      unfold sanitizeRepoUrl
      rw [if_pos (charsStartWith_append _ _)]
      exact hunchanged 8 rfl rest hrest
  · constructor
    · show sanitizeRepoUrl ⟨("http://" : String).data ++ (userinfo ++ '@' :: hostpath)⟩ = _
      unfold sanitizeRepoUrl
      rw [if_neg (by simp [charsStartWith]), if_pos (charsStartWith_append _ _)]
      exact hstrip 7 rfl
    · intro rest hrest
      show sanitizeRepoUrl ⟨("http://" : String).data ++ rest⟩ = _
      unfold sanitizeRepoUrl
      rw [if_neg (by simp [charsStartWith]), if_pos (charsStartWith_append _ _)]
      exact hunchanged 7 rfl rest hrest

theorem sanitize_repo_url_strips_through_first_at_witness :
    (("https://" : String) = "https://" ∨ ("https://" : String) = "http://")
    ∧ ¬("x-access-token:tok".data = ([] : List Char))
    ∧ (∀ ch ∈ "x-access-token:tok".data, ¬(ch = '@'))
    ∧ (sanitizeRepoUrl ⟨("https://" : String).data ++ "x-access-token:tok".data
          ++ '@' :: "github.com/u/r.git".data⟩
        = ⟨("https://" : String).data ++ "github.com/u/r.git".data⟩
      ∧ ∀ rest : List Char, (∀ ch ∈ rest, ¬(ch = '@')) →
          sanitizeRepoUrl ⟨("https://" : String).data ++ rest⟩
            = ⟨("https://" : String).data ++ rest⟩) :=
  ⟨Or.inl rfl, by decide, by decide,
    sanitize_repo_url_strips_through_first_at "https://" (Or.inl rfl)
      "x-access-token:tok".data "github.com/u/r.git".data (by decide) (by decide)⟩

theorem eraseIdx_map {α β : Type} (f : α → β) : ∀ (l : List α) (i : Nat),
    (l.map f).eraseIdx i = (l.eraseIdx i).map f := by
  intro l
  induction l with
  | nil => intro i; simp
  | cons a t ih =>
    intro i
    cases i with
    | zero => simp [List.eraseIdx]
    | succ j => simp [List.eraseIdx, ih j]

theorem countP_eraseIdx {α : Type} (p : α → Bool) :
    ∀ (l : List α) (i : Nat) (h : i < l.length),
      l.countP p = (l.eraseIdx i).countP p + (if p l[i] then 1 else 0) := by
  intro l
  induction l with
  | nil => intro i h; simp at h
  | cons a t ih =>
    intro i h
    cases i with
    | zero => simp [List.eraseIdx, List.countP_cons]
    | succ j =>
      have hj : j < t.length := by simpa using h
      have := ih j hj
      simp only [List.eraseIdx, List.countP_cons, List.getElem_cons_succ]
      omega

/-- Claim C1: If among the dispatched rule documents one rule's evaluation
never resolves, the race against the fixed `EXPERT_TIMEOUT = 40000` ms
budget settles that rule with the synthetic error result of kind timeout;
that result is counted in `timedOut` and not in `errors` (nor `completed`),
the other aggregates equal those of the run without this rule, and every
rule's result is the race of its own task alone, so no other rule's result
is affected. -/
theorem dispatcher_times_out_never_resolving_rule
    (tls : List DispatchedThreadline) (i : Nat) (rid : String)
    (hi : i < tls.length)
    (hnever : tls[i] = { id := rid, behavior := .neverResolves }) :
    (processThreadlines tls).results[i]? = some (timeoutResult rid)
    ∧ (timeoutResult rid).status = "error"
    ∧ (timeoutResult rid).errorType = some "timeout"
    ∧ (processThreadlines tls).metadata.timedOut
        = (processThreadlines (tls.eraseIdx i)).metadata.timedOut + 1
    ∧ (processThreadlines tls).metadata.errors
        = (processThreadlines (tls.eraseIdx i)).metadata.errors
    ∧ (processThreadlines tls).metadata.completed
        = (processThreadlines (tls.eraseIdx i)).metadata.completed
    ∧ ∀ j : Nat, (processThreadlines tls).results[j]?
        = tls[j]?.map raceWithTimeout := by
  have hmlen : i < (tls.map raceWithTimeout).length := by simpa using hi
  have hmi : (tls.map raceWithTimeout)[i] = timeoutResult rid := by
    rw [List.getElem_map, hnever]
    rfl
  refine ⟨?_, rfl, rfl, ?_, ?_, ?_, ?_⟩
  · show (tls.map raceWithTimeout)[i]? = some (timeoutResult rid)
    rw [List.getElem?_eq_getElem hmlen, hmi]
  · show (tls.map raceWithTimeout).countP isTimedOutResult
      = ((tls.eraseIdx i).map raceWithTimeout).countP isTimedOutResult + 1
    have h1 := countP_eraseIdx isTimedOutResult (tls.map raceWithTimeout) i hmlen
    rw [eraseIdx_map, hmi] at h1
    simpa using h1
  · show (tls.map raceWithTimeout).countP isErrorResult
      = ((tls.eraseIdx i).map raceWithTimeout).countP isErrorResult
    have h1 := countP_eraseIdx isErrorResult (tls.map raceWithTimeout) i hmlen
    rw [eraseIdx_map, hmi] at h1
    simpa using h1
  · show (tls.map raceWithTimeout).countP isCompletedResult
      = ((tls.eraseIdx i).map raceWithTimeout).countP isCompletedResult
    have h1 := countP_eraseIdx isCompletedResult (tls.map raceWithTimeout) i hmlen
    rw [eraseIdx_map, hmi] at h1
    simpa using h1
  · intro j
    show (tls.map raceWithTimeout)[j]? = tls[j]?.map raceWithTimeout
    rw [List.getElem?_map]

theorem dispatcher_times_out_never_resolving_rule_witness :
    1 < c1Tls.length
    ∧ c1Tls.get ⟨1, by decide⟩ = { id := "b", behavior := .neverResolves }
    ∧ ((processThreadlines c1Tls).results[1]? = some (timeoutResult "b")
      ∧ (timeoutResult "b").status = "error"
      ∧ (timeoutResult "b").errorType = some "timeout"
      ∧ (processThreadlines c1Tls).metadata.timedOut
          = (processThreadlines (c1Tls.eraseIdx 1)).metadata.timedOut + 1
      ∧ (processThreadlines c1Tls).metadata.errors
          = (processThreadlines (c1Tls.eraseIdx 1)).metadata.errors
      ∧ (processThreadlines c1Tls).metadata.completed
          = (processThreadlines (c1Tls.eraseIdx 1)).metadata.completed
      ∧ ∀ j : Nat, (processThreadlines c1Tls).results[j]?
          = c1Tls[j]?.map raceWithTimeout) :=
  ⟨by decide, by decide,
    dispatcher_times_out_never_resolving_rule c1Tls 1 "b" (by decide) (by decide)⟩

/-- Claim C4: `getCommitDiff` reads the raw commit object; when it has no
`parent ` line (the root commit) it fails with the descriptive root-commit
error after the single `cat-file` call, issuing no fetch and computing no
diff.  When a (valid) parent exists it fetches exactly that one parent
object, and only after the fetch does it run the two diff commands; if the
fetch fails, it aborts with the error naming that parent object, again
without computing a diff. -/
theorem getCommitDiff_parent_resolution
    (env1 : GitEnv) (sha1 co1 : String)
    (h1cat : env1.catFile = .ok co1)
    (h1np : (strSplit co1 '\n').find? (fun l => strStartsWith l "parent ") = none)
    (env2 : GitEnv) (sha2 co2 pl2 e2 : String)
    (h2cat : env2.catFile = .ok co2)
    (h2pl : (strSplit co2 '\n').find? (fun l => strStartsWith l "parent ") = some pl2)
    (h2ok : ((strSplit pl2 ' ').length < 2 || (strSplit pl2 ' ').getD 1 "" = "") = false)
    (h2sha : (strTrim ((strSplit pl2 ' ').getD 1 "") = ""
        || !((strTrim ((strSplit pl2 ' ').getD 1 "")).data.length = 40)) = false)
    (h2f : env2.fetch (strTrim ((strSplit pl2 ' ').getD 1 "")) = .error e2)
    (env3 : GitEnv) (sha3 co3 pl3 d3 n3 : String)
    (h3cat : env3.catFile = .ok co3)
    (h3pl : (strSplit co3 '\n').find? (fun l => strStartsWith l "parent ") = some pl3)
    (h3ok : ((strSplit pl3 ' ').length < 2 || (strSplit pl3 ' ').getD 1 "" = "") = false)
    (h3sha : (strTrim ((strSplit pl3 ' ').getD 1 "") = ""
        || !((strTrim ((strSplit pl3 ' ').getD 1 "")).data.length = 40)) = false)
    (h3f : env3.fetch (strTrim ((strSplit pl3 ' ').getD 1 "")) = .ok ())
    (h3d : env3.diffU200 = .ok d3)
    (h3n : env3.diffNameOnly = .ok n3) :
    getCommitDiff env1 sha1
      = (.error (parentStageErrMsg sha1 (noParentMsg sha1)), [.catFile sha1])
    ∧ getCommitDiff env2 sha2
      = (.error (fetchStageErrMsg (strTrim ((strSplit pl2 ' ').getD 1 "")) e2),
         [.catFile sha2, .fetch (strTrim ((strSplit pl2 ' ').getD 1 ""))])
    ∧ (getCommitDiff env2 sha2).2.countP isFetchCmd = 1
    ∧ (getCommitDiff env3 sha3).2
      = [.catFile sha3, .fetch (strTrim ((strSplit pl3 ' ').getD 1 "")),
         .diffU200 (strTrim ((strSplit pl3 ' ').getD 1 "")) sha3,
         .diffNameOnly (strTrim ((strSplit pl3 ' ').getD 1 "")) sha3]
    ∧ (getCommitDiff env3 sha3).2.countP isFetchCmd = 1 := by
  simp only [List.getD_eq_getElem?_getD] at h2f h3f
  have he2 : getCommitDiff env2 sha2
      = (.error (fetchStageErrMsg (strTrim ((strSplit pl2 ' ').getD 1 "")) e2),
         [.catFile sha2, .fetch (strTrim ((strSplit pl2 ' ').getD 1 ""))]) := by
    simp only [getCommitDiff, h2cat, h2pl, h2ok, h2sha]
    simp [h2f]
  have he3 : (getCommitDiff env3 sha3).2
      = [.catFile sha3, .fetch (strTrim ((strSplit pl3 ' ').getD 1 "")),
         .diffU200 (strTrim ((strSplit pl3 ' ').getD 1 "")) sha3,
         .diffNameOnly (strTrim ((strSplit pl3 ' ').getD 1 "")) sha3] := by
    simp only [getCommitDiff, h3cat, h3pl, h3ok, h3sha]
    simp [h3f, h3d, h3n]
  refine ⟨?_, he2, ?_, he3, ?_⟩
  · simp [getCommitDiff, h1cat, h1np]
  · rw [he2]
    simp [isFetchCmd]
  · rw [he3]
    simp [isFetchCmd]

theorem getCommitDiff_parent_resolution_witness :
    c4Env1.catFile = .ok "tree t\nauthor a"
    ∧ (strSplit "tree t\nauthor a" '\n').find? (fun l => strStartsWith l "parent ") = none
    ∧ c4Env2.catFile = .ok c4CommitObj
    ∧ (strSplit c4CommitObj '\n').find? (fun l => strStartsWith l "parent ")
        = some c4ParentLine
    ∧ ((strSplit c4ParentLine ' ').length < 2
        || (strSplit c4ParentLine ' ').getD 1 "" = "") = false
    ∧ (strTrim ((strSplit c4ParentLine ' ').getD 1 "") = ""
        || !((strTrim ((strSplit c4ParentLine ' ').getD 1 "")).data.length = 40)) = false
    ∧ c4Env2.fetch (strTrim ((strSplit c4ParentLine ' ').getD 1 ""))
        = .error "network unreachable"
    ∧ c4Env3.catFile = .ok c4CommitObj
    ∧ c4Env3.fetch (strTrim ((strSplit c4ParentLine ' ').getD 1 "")) = .ok ()
    ∧ c4Env3.diffU200 = .ok "D"
    ∧ c4Env3.diffNameOnly = .ok "a.ts"
    ∧ (getCommitDiff c4Env1 "root"
        = (.error (parentStageErrMsg "root" (noParentMsg "root")), [.catFile "root"])
      ∧ getCommitDiff c4Env2 "head"
        = (.error (fetchStageErrMsg (strTrim ((strSplit c4ParentLine ' ').getD 1 ""))
              "network unreachable"),
           [.catFile "head", .fetch (strTrim ((strSplit c4ParentLine ' ').getD 1 ""))])
      ∧ (getCommitDiff c4Env2 "head").2.countP isFetchCmd = 1
      ∧ (getCommitDiff c4Env3 "head").2
        = [.catFile "head", .fetch (strTrim ((strSplit c4ParentLine ' ').getD 1 "")),
           .diffU200 (strTrim ((strSplit c4ParentLine ' ').getD 1 "")) "head",
           .diffNameOnly (strTrim ((strSplit c4ParentLine ' ').getD 1 "")) "head"]
      ∧ (getCommitDiff c4Env3 "head").2.countP isFetchCmd = 1) :=
  ⟨by decide, by decide, by decide, by decide, by decide, by decide, by decide,
   by decide, by decide, by decide, by decide,
   getCommitDiff_parent_resolution c4Env1 "root" "tree t\nauthor a" (by decide) (by decide)
     c4Env2 "head" c4CommitObj c4ParentLine "network unreachable"
     (by decide) (by decide) (by decide) (by decide) (by decide)
     c4Env3 "head" c4CommitObj c4ParentLine "D" "a.ts"
     (by decide) (by decide) (by decide) (by decide) (by decide) (by decide) (by decide)⟩

theorem splitChars_ne_nil (sep : Char) : ∀ l : List Char, ¬(splitChars sep l = []) := by
  intro l
  induction l with
  | nil => simp [splitChars]
  | cons c cs ih =>
    simp only [splitChars]
    split
    · simp
    · cases h : splitChars sep cs with
      | nil => exact absurd h ih
      | cons r rs => simp

/-- Claim C8: In the Local review context, whenever staged changes exist
(`git diff --cached --name-only` is non-empty; its diff output is then
non-empty too), `getDiff` returns the staged diff (`git diff --cached
-U200`) and the staged file list, and nothing else: the result is the same
for any environment that agrees on the two staged outputs, whatever its
unstaged diff, unstaged file list, untracked files or status output — so
no unstaged or untracked change is included. -/
theorem local_staged_changes_reviewed_exclusively
    (env envOther : LocalEnv)
    (hst : ¬(strTrim env.stagedNameOnly = ""))
    (hcd : ¬(strTrim env.cachedDiff = ""))
    (h1 : envOther.stagedNameOnly = env.stagedNameOnly)
    (h2 : envOther.cachedDiff = env.cachedDiff) :
    getDiff env
      = .ok { diff := env.cachedDiff,
              changedFiles := strSplit (strTrim env.stagedNameOnly) '\n' }
    ∧ getDiff envOther = getDiff env := by
  have hsplit : ¬(strSplit (strTrim env.stagedNameOnly) '\n' = []) := by
    intro habs
    simp only [strSplit, List.map_eq_nil_iff] at habs
    exact splitChars_ne_nil '\n' _ habs
  have hlen : 0 < (strSplit (strTrim env.stagedNameOnly) '\n').length :=
    List.length_pos.mpr hsplit
  have hmain : getDiff env
      = .ok { diff := env.cachedDiff,
              changedFiles := strSplit (strTrim env.stagedNameOnly) '\n' } := by
    simp only [getDiff]
    rw [if_neg hst, if_pos hlen, if_neg hcd]
  refine ⟨hmain, ?_⟩
  rw [hmain]
  simp only [getDiff, h1, h2]
  rw [if_neg hst, if_pos hlen, if_neg hcd]

theorem local_staged_changes_reviewed_exclusively_witness :
    ¬(strTrim c8Env.stagedNameOnly = "")
    ∧ ¬(strTrim c8Env.cachedDiff = "")
    ∧ c8EnvOther.stagedNameOnly = c8Env.stagedNameOnly
    ∧ c8EnvOther.cachedDiff = c8Env.cachedDiff
    ∧ (getDiff c8Env
        = .ok { diff := c8Env.cachedDiff,
                changedFiles := strSplit (strTrim c8Env.stagedNameOnly) '\n' }
      ∧ getDiff c8EnvOther = getDiff c8Env) :=
  ⟨by decide, by decide, rfl, rfl,
    local_staged_changes_reviewed_exclusively c8Env c8EnvOther
      (by decide) (by decide) rfl rfl⟩

theorem diffHeaderGroupsGo_snd_ne_nil :
    ∀ (r acc : List Char) (ab : List Char × List Char),
      diffHeaderGroupsGo acc r = some ab → ¬(ab.2 = []) := by
  intro r
  induction r with
  | nil => intro acc ab h; simp [diffHeaderGroupsGo] at h
  | cons x xs ih =>
    intro acc ab h
    simp only [diffHeaderGroupsGo] at h
    split at h
    · cases hdrop : (x :: xs).drop 3 with
      | nil =>
        rw [hdrop] at h
        exact ih _ _ h
      | cons c cs =>
        rw [hdrop] at h
        injection h with h1
        rw [← h1]
        simp
    · exact ih _ _ h

theorem parseDiffGitHeader_starts {line : String} {x : String × String}
    (h : parseDiffGitHeader line = some x) :
    charsStartWith "diff --git a/".data line.data = true := by
  by_cases hc : charsStartWith "diff --git a/".data line.data = true
  · exact hc
  · unfold parseDiffGitHeader at h
    rw [if_neg hc] at h
    exact absurd h (by simp)

theorem parseDiffGitHeader_b_ne_empty {line a b : String}
    (h : parseDiffGitHeader line = some (a, b)) : ¬(b = "") := by
  unfold parseDiffGitHeader at h
  split at h
  · cases hg : diffHeaderGroups (line.data.drop 13) with
    | none => rw [hg] at h; exact absurd h (by simp)
    | some ab =>
      obtain ⟨a', b'⟩ := ab
      rw [hg] at h
      have hne : ¬(b' = []) := by
        cases hcase : line.data.drop 13 with
        | nil =>
          rw [hcase] at hg
          simp [diffHeaderGroups] at hg
        | cons c cs =>
          rw [hcase] at hg
          simp only [diffHeaderGroups] at hg
          exact fun hb => diffHeaderGroupsGo_snd_ne_nil cs [c] (a', b') hg hb
      injection h with h1
      cases h1
      intro habs
      exact hne (congrArg String.data habs)
  · exact absurd h (by simp)

theorem mem_foldl_extract (b : String) :
    ∀ (d : List String) (acc : List String), b ∈ acc →
      b ∈ d.foldl (fun acc line =>
        match parseDiffGitHeader line with
        | some (_, p) => if acc.contains p then acc else acc ++ [p]
        | none => acc) acc := by
  intro d
  induction d with
  | nil => intro acc h; simpa using h
  | cons line rest ih =>
    intro acc h
    simp only [List.foldl_cons]
    apply ih
    cases hp : parseDiffGitHeader line with
    | none => simpa [hp] using h
    | some v =>
      obtain ⟨a', b'⟩ := v
      simp only [hp]
      split
      · exact h
      · exact List.mem_append_left _ h

theorem mem_extractFilesFromDiff {b : String} :
    ∀ (d : List String) (acc : List String) (line a : String), line ∈ d →
      parseDiffGitHeader line = some (a, b) →
      b ∈ d.foldl (fun acc line =>
        match parseDiffGitHeader line with
        | some (_, p) => if acc.contains p then acc else acc ++ [p]
        | none => acc) acc := by
  intro d
  induction d with
  | nil => intro acc line a h; simp at h
  | cons l0 rest ih =>
    intro acc line a hmem hp
    simp only [List.foldl_cons]
    rcases List.mem_cons.mp hmem with rfl | hmem'
    · simp only [hp]
      apply mem_foldl_extract
      by_cases hcont : acc.contains b = true
      · rw [if_pos hcont]
        have hdm : acc.contains b = decide (b ∈ acc) := List.elem_eq_mem b acc
        rw [hdm] at hcont
        exact of_decide_eq_true hcont
      · rw [if_neg hcont]
        exact List.mem_append_right _ (by simp)
    · exact ih _ line a hmem' hp

theorem filterLoop_keeps_all (set : List String) :
    ∀ (l : List String) (cf : String), ¬(cf = "") → set.contains cf = true →
      (∀ line ∈ l, ∀ a b, parseDiffGitHeader line = some (a, b) →
        ¬(b = "") ∧ set.contains b = true) →
      filterLoop set l (some cf) true = l := by
  intro l
  induction l with
  | nil => intro cf _ _ _; rfl
  | cons line rest ih =>
    intro cf hcf hcfmem hall
    cases hp : parseDiffGitHeader line with
    | some v =>
      obtain ⟨a, b⟩ := v
      have hb := hall line (List.mem_cons_self _ _) a b hp
      simp only [filterLoop, hp, hb.2, if_true]
      rw [ih b hb.1 hb.2 (fun x hx => hall x (List.mem_cons_of_mem _ hx))]
      simp
    | none =>
      have hm : cf ∈ set := by
        have hdm : set.contains cf = decide (cf ∈ set) := List.elem_eq_mem cf set
        rw [hdm] at hcfmem
        exact of_decide_eq_true hcfmem
      have hcond : (true && truthyMem (some cf) set) = true := by
        simp [truthyMem, hcf, hm]
      simp only [filterLoop, hp, hcond, if_true]
      rw [ih cf hcf hcfmem (fun x hx => hall x (List.mem_cons_of_mem _ hx))]
      simp

/-- Claim C6: For a well-formed diff (its first line is a parseable
`diff --git` header and header paths carry no surrounding whitespace),
filtering by the full set of paths appearing in the diff is the identity,
and filtering by the empty list yields the empty diff, from which
`extractFilesFromDiff` extracts the empty file list. -/
theorem filter_by_all_paths_identity_and_empty (d : List String)
    (hhead : firstLineIsFileHeader d = true)
    (hclean : ∀ line ∈ d, headerPathClean line = true) :
    filterDiffByFiles d (extractFilesFromDiff d) = d
    ∧ filterDiffByFiles d [] = []
    ∧ extractFilesFromDiff (filterDiffByFiles d []) = [] := by
  have hempty : filterDiffByFiles d [] = [] := by
    unfold filterDiffByFiles
    split
    · rfl
    · simp
  refine ⟨?_, hempty, by rw [hempty]; rfl⟩
  cases d with
  | nil => rfl
  | cons l0 t =>
    simp only [firstLineIsFileHeader] at hhead
    obtain ⟨⟨a0, b0⟩, hp0⟩ := Option.isSome_iff_exists.mp hhead
    have hpre := parseDiffGitHeader_starts hp0
    obtain ⟨cs, hcs⟩ := (charsStartWith_iff _ _).mp hpre
    have hl0d : l0.data = 'd' :: ("iff --git a/".data ++ cs) := by rw [hcs]; rfl
    have hblank := strTrim_ne_empty hl0d (by decide)
    have hguard : ¬((l0 :: t).all (fun l => strTrim l = "") = true) := by
      intro habs
      rw [List.all_eq_true] at habs
      exact hblank (by simpa using habs l0 (List.mem_cons_self _ _))
    have hb0mem : b0 ∈ extractFilesFromDiff (l0 :: t) :=
      mem_extractFilesFromDiff (l0 :: t) [] l0 a0 (List.mem_cons_self _ _) hp0
    have hlen : ¬((extractFilesFromDiff (l0 :: t)).length = 0) := by
      intro habs
      rw [List.length_eq_zero] at habs
      rw [habs] at hb0mem
      simp at hb0mem
    have hmemS : ∀ line ∈ (l0 :: t), ∀ a b, parseDiffGitHeader line = some (a, b) →
        ¬(b = "") ∧ ((extractFilesFromDiff (l0 :: t)).map strTrim).contains b = true := by
      intro line hline a b hp
      refine ⟨parseDiffGitHeader_b_ne_empty hp, ?_⟩
      have hbm : b ∈ extractFilesFromDiff (l0 :: t) :=
        mem_extractFilesFromDiff (l0 :: t) [] line a hline hp
      have htb : strTrim b = b := by
        have hx := hclean line hline
        simp only [headerPathClean, hp] at hx
        exact of_decide_eq_true hx
      have hmm : strTrim b ∈ (extractFilesFromDiff (l0 :: t)).map strTrim :=
        List.mem_map_of_mem strTrim hbm
      rw [htb] at hmm
      have hc : ((extractFilesFromDiff (l0 :: t)).map strTrim).contains b
          = decide (b ∈ (extractFilesFromDiff (l0 :: t)).map strTrim) :=
        List.elem_eq_mem b _
      rw [hc]
      exact decide_eq_true hmm
    have hb0 := hmemS l0 (List.mem_cons_self _ _) a0 b0 hp0
    unfold filterDiffByFiles
    rw [if_neg hguard, if_neg hlen]
    simp only [filterLoop, hp0, hb0.2, if_true]
    rw [filterLoop_keeps_all _ t b0 hb0.1 hb0.2
      (fun x hx => hmemS x (List.mem_cons_of_mem _ hx))]
    simp

theorem filter_by_all_paths_identity_and_empty_witness :
    firstLineIsFileHeader c6Diff = true
    ∧ (∀ line ∈ c6Diff, headerPathClean line = true)
    ∧ (filterDiffByFiles c6Diff (extractFilesFromDiff c6Diff) = c6Diff
      ∧ filterDiffByFiles c6Diff [] = []
      ∧ extractFilesFromDiff (filterDiffByFiles c6Diff []) = []) :=
  ⟨by decide, by decide,
    filter_by_all_paths_identity_and_empty c6Diff (by decide) (by decide)⟩

/-- Claim C3 counterexample: with the diff touching exactly `a.ts` and
`b.ts` and the single pattern `**/a.ts`, the compiled regex `^.*/a.ts$`
requires a literal `/` before `a.ts`, so the top-level file `a.ts` does
not match; no file matches, and `processThreadline` returns the immediate
`not_relevant` result instead of launching an evaluation task. -/
theorem pattern_double_star_top_level_counterexample :
    matchesPattern "a.ts" "**/a.ts" = false
    ∧ matchesPattern "b.ts" "**/a.ts" = false
    ∧ processThreadlineDecision ["**/a.ts"]
        ["diff --git a/a.ts b/a.ts", "--- a/a.ts", "+++ b/a.ts",
         "@@ -1,1 +1,1 @@", "-x", "+y",
         "diff --git a/b.ts b/b.ts", "--- a/b.ts", "+++ b/b.ts",
         "@@ -1,1 +1,1 @@", "-u", "+v"]
        ["a.ts", "b.ts"] 3
      = .notRelevant "No files match threadline patterns: **/a.ts" := by decide

/-- Claim C3 (amended): for a diff touching exactly `src/a.ts` and `b.ts`
(the matching file must contain a `/`, since the compiled regex for
`**/a.ts` demands one) and a rule whose patterns are exactly `["**/a.ts"]`,
`processThreadline` selects `src/a.ts` as the matching file, filters the
diff to only the `src/a.ts` section before evaluation, and does not return
a `not_relevant` result: an evaluation task is launched for the rule. -/
theorem pattern_selects_and_filters_matching_file :
    processThreadlineDecision ["**/a.ts"]
      ["diff --git a/src/a.ts b/src/a.ts", "--- a/src/a.ts", "+++ b/src/a.ts",
       "@@ -1,1 +1,1 @@", "-x", "+y",
       "diff --git a/b.ts b/b.ts", "--- a/b.ts", "+++ b/b.ts",
       "@@ -1,1 +1,1 @@", "-u", "+v"]
      ["src/a.ts", "b.ts"] 3
    = .launched ["src/a.ts"]
        ["diff --git a/src/a.ts b/src/a.ts", "--- a/src/a.ts", "+++ b/src/a.ts",
         "@@ -1,1 +1,1 @@", "-x", "+y"]
        ["src/a.ts"]
        ["diff --git a/src/a.ts b/src/a.ts", "--- a/src/a.ts", "+++ b/src/a.ts",
         "@@ -1,1 +1,1 @@", "-x", "+y"] := by decide

end ThreadlineCLI
